import Mathlib

/-!
# Verification of the fixed-point SVM inference simulator

Shallow embedding of `src/simulation/fixed_point_sim.py` and
`src/simulation/hardware_eval.py` (repository `fpga-hft`), together with
proofs settling the specification claims about them.

Machine integers are modelled as `ℤ` with explicit two's-complement
wrapping (`wrap`) where numpy narrows to `int16`/`int32`; the real-valued
exponential reference used by the LUT builder is modelled over `ℝ` with
`Real.exp`; index arithmetic done with Python float division is modelled
exactly over `ℚ` (the values involved are far from any float-rounding
boundary, so the rational model is faithful).
-/

namespace FPGA

/-- Two's-complement wrap of an integer into the signed `bits`-bit range,
as numpy does when narrowing to a fixed-width dtype. -/
def wrap (bits : ℕ) (v : ℤ) : ℤ := (v + 2 ^ (bits - 1)) % 2 ^ bits - 2 ^ (bits - 1)

/-- `np.int16` conversion: wrap into `[-2^15, 2^15)`. -/
def toInt16 (v : ℤ) : ℤ := wrap 16 v

/-- `np.int32` conversion: wrap into `[-2^31, 2^31)`. -/
def toInt32 (v : ℤ) : ℤ := wrap 32 v

/-- `np.clip(v, lo, hi)` on integers: `min (max v lo) hi`. -/
def clip (v lo hi : ℤ) : ℤ := min (max v lo) hi

/-- `FixedPointSVM.__init__` state: the configured integer and fractional
bit widths (`fixed_point_sim.py`, lines 15–19). -/
structure FixedPointSVM where
  int_bits : ℕ
  frac_bits : ℕ
deriving DecidableEq

/-- `self.scale = 2 ** frac_bits`. -/
def FixedPointSVM.scale (fp : FixedPointSVM) : ℤ := 2 ^ fp.frac_bits

/-- `self.total_bits = int_bits + frac_bits`. -/
def FixedPointSVM.total_bits (fp : FixedPointSVM) : ℕ := fp.int_bits + fp.frac_bits

/-- `FixedPointSVM.saturate` (lines 21–25): clips to the hard-coded 16-bit
signed range `[-2^15, 2^15 - 1]`, regardless of the configured widths. -/
def FixedPointSVM.saturate (_fp : FixedPointSVM) (value : ℤ) : ℤ :=
  clip value (-(2 ^ 15)) (2 ^ 15 - 1)

/-- `FixedPointSVM.fixed_mult` (lines 27–34): `np.int32(a) * np.int32(b)`,
arithmetic right shift by `frac_bits`, then saturate. The `int32` narrowing
of the product is modelled by `toInt32`; `>>>` on `ℤ` is the arithmetic
(floor) shift, exactly numpy's `>>` on `int32`. -/
def FixedPointSVM.fixed_mult (fp : FixedPointSVM) (a b : ℤ) : ℤ :=
  fp.saturate (toInt32 (a * b) >>> fp.frac_bits)

/-- `FixedPointSVM.fixed_add` (lines 36–39): add then saturate. -/
def FixedPointSVM.fixed_add (fp : FixedPointSVM) (a b : ℤ) : ℤ :=
  fp.saturate (a + b)

/-- The default format `FixedPointSVM()` = Q8.8 used by both simulators. -/
def fp0 : FixedPointSVM := ⟨8, 8⟩

/-- `LinearSVMSimulator` state after `__init__` (lines 44–49): weights and
bias narrowed to `int16`. -/
structure LinearSVMSimulator where
  weights : List ℤ
  bias : ℤ
deriving DecidableEq

/-- `LinearSVMSimulator.__init__`: `np.array(weights_fp, dtype=np.int16)`,
`np.int16(bias_fp)`. -/
def mkLinear (weights_fp : List ℤ) (bias_fp : ℤ) : LinearSVMSimulator :=
  ⟨weights_fp.map toInt16, toInt16 bias_fp⟩

/-- `self.n_features = len(weights_fp)`. -/
def LinearSVMSimulator.n_features (m : LinearSVMSimulator) : ℕ := m.weights.length

/-- `LinearSVMSimulator.predict_sample` (lines 51–70): the index loop
`for i in range(self.n_features)` pairing `weights[i]` with `x[i]` is the
fold over `weights.zip x` (the two agree whenever `len(x) == n_features`,
the only case in which the Python loop does not fault).  Returns
`(prediction, result)` with `prediction = 1 if result >= 0 else 0`. -/
def LinearSVMSimulator.predict_sample (m : LinearSVMSimulator) (x_fp : List ℤ) : ℤ × ℤ :=
  let x := x_fp.map toInt16
  let acc := (m.weights.zip x).foldl
    (fun acc p => fp0.fixed_add acc (fp0.fixed_mult p.1 p.2)) 0
  let result := fp0.fixed_add acc m.bias
  (if 0 ≤ result then 1 else 0, result)

/-- `HardwareCounter` (`hardware_eval.py`, lines 10–43): per-category
operation counters. -/
structure HardwareCounter where
  macs : ℕ
  adds : ℕ
  mults : ℕ
  comps : ℕ
  luts : ℕ
  total_ops : ℕ
deriving DecidableEq

/-- `HardwareCounter.reset`: all counters zero. -/
def HardwareCounter.reset : HardwareCounter := ⟨0, 0, 0, 0, 0, 0⟩

/-- `HardwareCounter.mac`: a MAC bumps `macs`, `mults`, `adds` and adds 2
to `total_ops`. -/
def HardwareCounter.mac (c : HardwareCounter) : HardwareCounter :=
  { c with macs := c.macs + 1, mults := c.mults + 1, adds := c.adds + 1,
           total_ops := c.total_ops + 2 }

/-- `HardwareCounter.add`. -/
def HardwareCounter.add (c : HardwareCounter) : HardwareCounter :=
  { c with adds := c.adds + 1, total_ops := c.total_ops + 1 }

/-- `HardwareCounter.comp`. -/
def HardwareCounter.comp (c : HardwareCounter) : HardwareCounter :=
  { c with comps := c.comps + 1, total_ops := c.total_ops + 1 }

/-- `HardwareCounter.lut`. -/
def HardwareCounter.lut (c : HardwareCounter) : HardwareCounter :=
  { c with luts := c.luts + 1, total_ops := c.total_ops + 1 }

/-- `HardwareLinearSVM` state (`hardware_eval.py`, lines 45–50): weights
and bias narrowed to `int16`. -/
structure HardwareLinearSVM where
  weights : List ℤ
  bias : ℤ
deriving DecidableEq

/-- `HardwareLinearSVM.__init__`. -/
def mkHardwareLinear (weights_fp : List ℤ) (bias_fp : ℤ) : HardwareLinearSVM :=
  ⟨weights_fp.map toInt16, toInt16 bias_fp⟩

/-- `self.n_features = len(weights_fp)`. -/
def HardwareLinearSVM.n_features (m : HardwareLinearSVM) : ℕ := m.weights.length

/-- `HardwareLinearSVM.predict` (lines 52–82): explicit `int32` MAC loop
(one `counter.mac()` per feature), bias aligned by `<< 8` and added
(`counter.add()`), sign compare (`counter.comp()`).  The index loop over
`range(n_features)` is again the fold over `weights.zip x`. -/
def HardwareLinearSVM.predict (m : HardwareLinearSVM) (x_in : List ℤ) :
    (ℤ × ℤ) × HardwareCounter :=
  let x := x_in.map toInt16
  let s := (m.weights.zip x).foldl
    (fun (s : ℤ × HardwareCounter) p => (toInt32 (s.1 + p.1 * p.2), s.2.mac))
    (0, HardwareCounter.reset)
  let val := toInt32 (s.1 + toInt32 (m.bias * 2 ^ 8))
  let c := s.2.add
  ((if 0 ≤ val then 1 else 0, val), c.comp)

/-- `HardwareLinearSVM.estimate_cycles` (lines 84–91): returns the
hard-coded constant 6 (the comment derives it for a 16-feature fully
parallel adder tree). -/
def HardwareLinearSVM.estimate_cycles (_ : HardwareLinearSVM) : ℕ := 6

/-- `KernelSVMSimulator` state after `__init__` (`fixed_point_sim.py`,
lines 91–99): all parameters narrowed to `int16`. -/
structure KernelSVMSimulator where
  support_vectors : List (List ℤ)
  dual_coef : List ℤ
  bias : ℤ
  gamma : ℤ
deriving DecidableEq

/-- `KernelSVMSimulator.__init__` (lines 91–102).  The constructor performs
no dimension validation: it only fails when `np.array(sv_fp, dtype=np.int16)`
cannot build a 2-D array (ragged rows raise `ValueError`) or when the matrix
is empty (`.shape[1]` raises `IndexError`); `n_support` is simply
`len(dual_coef_fp)` and is never compared against the number of rows. -/
def mkKernel (sv_fp : List (List ℤ)) (dual_coef_fp : List ℤ) (bias_fp gamma_fp : ℤ) :
    Option KernelSVMSimulator :=
  match sv_fp with
  | [] => none
  | r :: rs =>
    if (r :: rs).all (fun s => s.length = r.length) then
      some ⟨(r :: rs).map (List.map toInt16), dual_coef_fp.map toInt16,
            toInt16 bias_fp, toInt16 gamma_fp⟩
    else none

/-- `self.n_support = len(dual_coef_fp)`. -/
def KernelSVMSimulator.n_support (m : KernelSVMSimulator) : ℕ := m.dual_coef.length

/-- `self.n_features = self.support_vectors.shape[1]`. -/
def KernelSVMSimulator.n_features (m : KernelSVMSimulator) : ℕ :=
  m.support_vectors.headI.length

/-- `KernelSVMSimulator.compute_distance_sq` (lines 121–133).  Per feature:
`diff = saturate(x[i] - sv[i])` — the subtraction of two `np.int16` scalars
wraps in `int16` before the (then vacuous) saturation — then
`sq = fixed_mult(diff, diff)` and `dist_sq = fixed_add(dist_sq, sq)`,
with 3 counted operations.  Returns `(dist_sq, ops)`. -/
def distStep (s : ℤ × ℕ) (p : ℤ × ℤ) : ℤ × ℕ :=
  let diff := fp0.saturate (toInt16 (p.1 - p.2))
  let sq := fp0.fixed_mult diff diff
  (fp0.fixed_add s.1 sq, s.2 + 3)

/-- The fold of `compute_distance_sq` over the feature pairs, starting from
`dist_sq = 0`, `ops = 0`. -/
def compute_distance_sq (x sv : List ℤ) : ℤ × ℕ :=
  (x.zip sv).foldl distStep (0, 0)

/-- `min`/`max` clip over the rationals, for the float index arithmetic of
`exp_approximation`. -/
def clipQ (v lo hi : ℚ) : ℚ := min (max v lo) hi

/-- The LUT index computed by `KernelSVMSimulator.exp_approximation`
(lines 135–145): `dist_float = dist_sq / 256`;
`index = int(np.clip((dist_float / 16.0) * 255, 0, 255))` — after the clip
the value is non-negative, so Python's truncating `int()` is the floor. -/
def lutIndex (dist_sq : ℤ) : ℕ :=
  (⌊clipQ ((dist_sq : ℚ) / 256 / 16 * 255) 0 255⌋).toNat

/-- Truncation toward zero, the conversion `np.int16` applies to a float
(after the clip keeps it inside the 16-bit range). -/
noncomputable def itrunc (x : ℝ) : ℤ := if 0 ≤ x then ⌊x⌋ else -⌊-x⌋

/-- `min`/`max` clip over the reals (`np.clip` on floats). -/
noncomputable def clipR (v lo hi : ℝ) : ℝ := min (max v lo) hi

/-- One entry of `KernelSVMSimulator.build_exp_lut` (lines 104–119):
`dist_sq = (i / 256) * 16.0`; `gamma_float = gamma / 256`;
`exp_val = np.exp(-gamma_float * dist_sq)`;
stored as `np.int16(np.clip(exp_val * 256, -32768, 32767))`.
The float evaluation of `exp` is modelled by `Real.exp`. -/
noncomputable def build_exp_lut (gamma : ℤ) (i : ℕ) : ℤ :=
  itrunc (clipR (Real.exp (-((gamma : ℝ) / 256 * ((i : ℝ) / 256 * 16))) * 256) (-32768) 32767)

/-- `KernelSVMSimulator.exp_approximation` (lines 135–145): clip-and-scale
index into the LUT; returns `self.lut[index]` (the operation count `1` it
also returns is elided). -/
noncomputable def exp_approximation (gamma : ℤ) (dist_sq : ℤ) : ℤ :=
  build_exp_lut gamma (lutIndex dist_sq)

end FPGA

namespace FPGA

/-- First claim-free sanity lemma: `clip` lands between its bounds. -/
theorem clip_le (v lo hi : ℤ) (h : lo ≤ hi) : lo ≤ clip v lo hi ∧ clip v lo hi ≤ hi := by
  unfold clip
  constructor
  · exact le_min (le_max_right v lo) h
  · exact min_le_right _ _

/-- `wrap b v = v` when `v` is already in the signed `b`-bit range. -/
theorem wrap_eq_self (b : ℕ) (v : ℤ) (h1 : -(2 ^ (b - 1)) ≤ v) (h2 : v + 2 ^ (b - 1) < 2 ^ b) :
    wrap b v = v := by
  unfold wrap
  rw [Int.emod_eq_of_lt (by omega) h2]
  omega

/-- `toInt32` is the identity on the `int32` range. -/
theorem toInt32_eq_self (v : ℤ) (h1 : -(2 ^ 31) ≤ v) (h2 : v < 2 ^ 31) : toInt32 v = v := by
  have := wrap_eq_self 32 v (by norm_num; omega) (by norm_num; omega)
  simpa [toInt32] using this

/-- `toInt16` always lands in the signed 16-bit range. -/
theorem toInt16_bounds (v : ℤ) : -(2 ^ 15) ≤ toInt16 v ∧ toInt16 v < 2 ^ 15 := by
  unfold toInt16 wrap
  have h1 := Int.emod_nonneg (v + 2 ^ (16 - 1)) (show (2 : ℤ) ^ 16 ≠ 0 by norm_num)
  have h2 := Int.emod_lt_of_pos (v + 2 ^ (16 - 1)) (show (0 : ℤ) < 2 ^ 16 by norm_num)
  norm_num at h1 h2 ⊢
  omega

/-- A non-negative value saturates into `[0, 2^15 - 1]`. -/
theorem saturate_nonneg (fp : FixedPointSVM) (v : ℤ) (h : 0 ≤ v) :
    0 ≤ fp.saturate v ∧ fp.saturate v ≤ 2 ^ 15 - 1 := by
  unfold FixedPointSVM.saturate clip
  constructor
  · exact le_min (le_trans h (le_max_left v _)) (by norm_num)
  · exact min_le_right _ _

/-- `FixedPointSVM.saturate` output always lies in the 16-bit range. -/
theorem saturate_bounds (fp : FixedPointSVM) (v : ℤ) :
    -(2 ^ 15) ≤ fp.saturate v ∧ fp.saturate v ≤ 2 ^ 15 - 1 :=
  clip_le v _ _ (by norm_num)

/-- Squaring a saturated value and shifting keeps `fixed_mult` non-negative
and in range. -/
theorem fixed_mult_self_nonneg (c : ℤ) (h1 : -(2 ^ 15) ≤ c) (h2 : c ≤ 2 ^ 15 - 1) :
    0 ≤ fp0.fixed_mult c c ∧ fp0.fixed_mult c c ≤ 2 ^ 15 - 1 := by
  unfold FixedPointSVM.fixed_mult
  have hsq : toInt32 (c * c) = c * c := by
    apply toInt32_eq_self
    · nlinarith [mul_self_nonneg c]
    · nlinarith
  rw [hsq]
  apply saturate_nonneg
  rw [Int.shiftRight_eq_div_pow]
  exact Int.ediv_nonneg (mul_self_nonneg c) (by positivity)

/-- C1: for every pair of in-range fixed-point values, `fixed_mult a b` is
`saturate` of the full-width product floor-divided by `2^frac_bits`
(truncation toward negative infinity, never round-half-up): the `int32`
product does not wrap and the arithmetic right shift is the floor of the
exact rational quotient. -/
theorem c1_fixed_mult_floor (fp : FixedPointSVM) (a b : ℤ)
    (ha1 : -(2 ^ 15) ≤ a) (ha2 : a ≤ 2 ^ 15 - 1)
    (hb1 : -(2 ^ 15) ≤ b) (hb2 : b ≤ 2 ^ 15 - 1) :
    fp.fixed_mult a b = fp.saturate ⌊((a * b : ℤ) : ℚ) / ((2 ^ fp.frac_bits : ℕ) : ℚ)⌋ := by
  unfold FixedPointSVM.fixed_mult
  have hw : toInt32 (a * b) = a * b := by
    apply toInt32_eq_self
    · nlinarith
    · nlinarith
  rw [hw, Int.shiftRight_eq_div_pow, Rat.floor_intCast_div_natCast]

/-- Witness for C1 at the most negative operands: `(-2^15) · (-2^15)`
saturates after the shift. -/
theorem c1_fixed_mult_floor_witness :
    fp0.fixed_mult (-32768) (-32768) =
      fp0.saturate ⌊(((-32768 : ℤ) * (-32768 : ℤ) : ℤ) : ℚ) / ((2 ^ fp0.frac_bits : ℕ) : ℚ)⌋ :=
  c1_fixed_mult_floor fp0 (-32768) (-32768) (by norm_num) (by norm_num) (by norm_num)
    (by norm_num)

/-- C2 counterexample: with a configured 4-bit format (`int_bits = 2`,
`frac_bits = 2`), `fixed_add 100 100 = 200` escapes the format-derived
range `[-2^3, 2^3 - 1]`: saturation is hard-coded to the 16-bit constants,
not derived from `total_bits`. -/
theorem c2_small_format_escapes :
    (FixedPointSVM.mk 2 2).fixed_add 100 100 = 200 ∧
    (2 : ℤ) ^ ((FixedPointSVM.mk 2 2).total_bits - 1) - 1 = 7 ∧
    ¬ ((200 : ℤ) ≤ 7) := by decide

/-- C2 (amended): for every configured format and all integer inputs,
`fixed_add` and `fixed_mult` land in the fixed 16-bit range
`[-2^15, 2^15 - 1]` (which equals the format-derived range exactly when
`total_bits = 16`, as in the Q8.8 default), and overflow-inducing inputs
clip to exactly those boundary constants rather than wrapping. -/
theorem c2_results_in_16bit_range (fp : FixedPointSVM) (a b : ℤ) :
    (-(2 ^ 15) ≤ fp.fixed_add a b ∧ fp.fixed_add a b ≤ 2 ^ 15 - 1) ∧
    (-(2 ^ 15) ≤ fp.fixed_mult a b ∧ fp.fixed_mult a b ≤ 2 ^ 15 - 1) ∧
    fp0.fixed_add 32767 1 = 32767 ∧ fp0.fixed_add (-32768) (-1) = -32768 ∧
    fp0.fixed_mult 32767 32767 = 32767 ∧ fp0.fixed_mult (-32768) 32767 = -32768 :=
  ⟨saturate_bounds fp _, saturate_bounds fp _, by decide, by decide, by decide, by decide⟩

/-- C5: the Q8.8 boundary example `weights = [256, -256]`, `x = [256, 256]`,
`bias = 0` yields decision value 0 and class 1; in general the predicted
class is 1 exactly when the decision value is `≥ 0`. -/
theorem c5_linear_boundary :
    (mkLinear [256, -256] 0).predict_sample [256, 256] = (1, 0) ∧
    ∀ (w x : List ℤ) (b : ℤ),
      (((mkLinear w b).predict_sample x).1 = 1 ↔ 0 ≤ ((mkLinear w b).predict_sample x).2) := by
  refine ⟨by decide, ?_⟩
  intro w x b
  dsimp only [LinearSVMSimulator.predict_sample]
  split
  · simp [*]
  · simp [*]

/-- The counter component of the hardware MAC loop only grows by the length
of the feature list, independent of every numeric value. -/
theorem foldl_mac_counter (l : List (ℤ × ℤ)) (a : ℤ) (c : HardwareCounter) :
    (l.foldl (fun (s : ℤ × HardwareCounter) p => (toInt32 (s.1 + p.1 * p.2), s.2.mac))
        (a, c)).2 =
      ⟨c.macs + l.length, c.adds + l.length, c.mults + l.length, c.comps, c.luts,
       c.total_ops + 2 * l.length⟩ := by
  induction l generalizing a c with
  | nil =>
    cases c
    simp
  | cons p t ih =>
    simp only [List.foldl_cons, List.length_cons]
    rw [ih]
    obtain ⟨m1, a1, u1, c1, l1, t1⟩ := c
    simp [HardwareCounter.mac, HardwareCounter.mk.injEq]
    omega

/-- C7: after a hardware linear `predict` over an input of `n` features, the
tally is exactly `n` multiply-accumulate pairs, one further add (the bias)
and one compare — `macs = n`, `adds = n + 1` (each MAC books its own add),
`mults = n`, `comps = 1`, `luts = 0`, `total_ops = 2n + 2` — independent of
the numeric values of input, weights and bias. -/
theorem c7_linear_tally (w x : List ℤ) (b : ℤ) (h : x.length = w.length) :
    ((mkHardwareLinear w b).predict x).2 =
      ⟨w.length, w.length + 1, w.length, 1, 0, 2 * w.length + 2⟩ := by
  unfold HardwareLinearSVM.predict mkHardwareLinear
  dsimp only
  rw [foldl_mac_counter]
  simp [HardwareCounter.add, HardwareCounter.comp, HardwareCounter.reset,
    List.length_zip, h]

/-- Witness for C7 with one feature: `macs = 1`, `adds = 2`, `comps = 1`. -/
theorem c7_linear_tally_witness :
    ((mkHardwareLinear [5] 0).predict [7]).2 = ⟨1, 2, 1, 1, 0, 4⟩ :=
  c7_linear_tally [5] [7] 0 rfl

/-- C8 counterexample: with 4 features, `estimate_cycles` still returns the
hard-coded 6, while the claimed formula `ceil(log2(n)) + 1 + 1` gives 4. -/
theorem c8_cycles_counterexample :
    (mkHardwareLinear [256, 256, 256, 256] 0).estimate_cycles = 6 ∧
    Nat.clog 2 (mkHardwareLinear [256, 256, 256, 256] 0).n_features + 1 + 1 = 4 ∧
    (6 : ℕ) ≠ 4 := by
  refine ⟨rfl, ?_, by decide⟩
  have hn : (mkHardwareLinear [256, 256, 256, 256] 0).n_features = 2 ^ 2 := rfl
  rw [hn, Nat.clog_pow 2 2 (by norm_num)]

/-- C8 (amended): `estimate_cycles` is the constant 6 for every engine —
a pure structural constant, never reading tally contents or sample data —
and 6 agrees with `ceil(log2(n_features)) + 1 + 1` only at the assumed
`n_features = 16`. -/
theorem c8_cycles_constant (m : HardwareLinearSVM) :
    m.estimate_cycles = 6 ∧ 6 = Nat.clog 2 16 + 1 + 1 := by
  refine ⟨rfl, ?_⟩
  rw [show (16 : ℕ) = 2 ^ 4 from rfl, Nat.clog_pow 2 4 (by norm_num)]

/-- C9 counterexample: a kernel parameter record whose dual-coefficient
length (1) disagrees with its number of support-vector rows (2) is accepted
at construction — no validation error is raised. -/
theorem c9_mismatch_accepted :
    mkKernel [[1], [1]] [1] 0 0 = some ⟨[[1], [1]], [1], 0, 0⟩ ∧
    ([1] : List ℤ).length ≠ ([[1], [1]] : List (List ℤ)).length := by decide

/-- C9 (amended): kernel construction fails only when the support-vector
matrix is empty or ragged (numpy array creation); a dual-coefficient length
that disagrees with the number of support-vector rows is never detected —
construction succeeds and inference would proceed with
`n_support = len(dual_coef)`. -/
theorem c9_construction_checks_shape_only (sv : List (List ℤ)) (d : List ℤ) (b g : ℤ) :
    (mkKernel sv d b g).isSome = true ↔
      sv ≠ [] ∧ ∀ r ∈ sv, r.length = sv.headI.length := by
  cases sv with
  | nil => simp [mkKernel]
  | cons r rs =>
    simp only [mkKernel]
    split
    · next hall =>
      simp only [List.all_eq_true, decide_eq_true_eq] at hall
      simp only [Option.isSome_some, List.headI, true_iff]
      exact ⟨List.cons_ne_nil r rs, hall⟩
    · next hall =>
      simp only [List.all_eq_true, decide_eq_true_eq] at hall
      simp only [Option.isSome_none, Bool.false_eq_true, List.headI, false_iff, not_and]
      intro _ h
      exact hall h

/-- Each `distStep` keeps the accumulated squared distance in
`[0, 2^15 - 1]`. -/
theorem distStep_bounds (s : ℤ × ℕ) (p : ℤ × ℤ) (h0 : 0 ≤ s.1) (h1 : s.1 ≤ 2 ^ 15 - 1) :
    0 ≤ (distStep s p).1 ∧ (distStep s p).1 ≤ 2 ^ 15 - 1 := by
  unfold distStep
  have hd := saturate_bounds fp0 (toInt16 (p.1 - p.2))
  have hsq := fixed_mult_self_nonneg _ hd.1 hd.2
  exact saturate_nonneg fp0 _ (by omega)

/-- C10: the fixed-point squared-distance accumulation is non-negative and
at most `max_val = 2^15 - 1` for every pair of input and support vectors:
each per-feature square is non-negative after the sign-preserving shift, and
the saturating sum of non-negative terms starting from 0 stays in range, so
the distance handed to the exponential lookup is never negative. -/
theorem c10_distance_in_range (x sv : List ℤ) :
    0 ≤ (compute_distance_sq x sv).1 ∧ (compute_distance_sq x sv).1 ≤ 2 ^ 15 - 1 := by
  unfold compute_distance_sq
  generalize x.zip sv = l
  have h : ∀ (l : List (ℤ × ℤ)) (s : ℤ × ℕ), 0 ≤ s.1 → s.1 ≤ 2 ^ 15 - 1 →
      0 ≤ (l.foldl distStep s).1 ∧ (l.foldl distStep s).1 ≤ 2 ^ 15 - 1 := by
    intro l
    induction l with
    | nil => intro s h0 h1; exact ⟨h0, h1⟩
    | cons p t ih =>
      intro s h0 h1
      have := distStep_bounds s p h0 h1
      exact ih _ this.1 this.2
  exact h l (0, 0) le_rfl (by norm_num)

/-- For a non-negative `gamma` the clip and the truncation of the LUT
builder are inert: the stored entry is exactly the floor of the scaled
exponential (which lies in `(0, 256]`). -/
theorem build_exp_lut_eq_floor (g : ℤ) (hg : 0 ≤ g) (i : ℕ) :
    build_exp_lut g i = ⌊Real.exp (-((g : ℝ) / 256 * ((i : ℝ) / 256 * 16))) * 256⌋ := by
  unfold build_exp_lut clipR itrunc
  have hg' : (0 : ℝ) ≤ (g : ℝ) := by exact_mod_cast hg
  have harg : (0 : ℝ) ≤ (g : ℝ) / 256 * ((i : ℝ) / 256 * 16) := by positivity
  have h1 : 0 < Real.exp (-((g : ℝ) / 256 * ((i : ℝ) / 256 * 16))) := Real.exp_pos _
  have h2 : Real.exp (-((g : ℝ) / 256 * ((i : ℝ) / 256 * 16))) ≤ 1 := by
    rw [Real.exp_le_one_iff]
    linarith
  rw [max_eq_left (by nlinarith), min_eq_left (by nlinarith), if_pos (by nlinarith)]

/-- The stored LUT entries are antitone in the index for `gamma ≥ 0`. -/
theorem build_exp_lut_antitone (g : ℤ) (hg : 0 ≤ g) {i j : ℕ} (hij : i ≤ j) :
    build_exp_lut g j ≤ build_exp_lut g i := by
  rw [build_exp_lut_eq_floor g hg i, build_exp_lut_eq_floor g hg j]
  apply Int.floor_le_floor
  have hg' : (0 : ℝ) ≤ (g : ℝ) := by exact_mod_cast hg
  have hij' : ((i : ℝ)) ≤ (j : ℝ) := by exact_mod_cast hij
  have hmono : (g : ℝ) / 256 * ((i : ℝ) / 256 * 16) ≤ (g : ℝ) / 256 * ((j : ℝ) / 256 * 16) := by
    apply mul_le_mul_of_nonneg_left _ (by positivity)
    linarith
  have := Real.exp_le_exp.mpr (neg_le_neg hmono)
  linarith

/-- The clip-and-scale LUT index is monotone in the fixed-point distance. -/
theorem lutIndex_mono {d1 d2 : ℤ} (h : d1 ≤ d2) : lutIndex d1 ≤ lutIndex d2 := by
  unfold lutIndex clipQ
  apply Int.toNat_le_toNat
  apply Int.floor_le_floor
  have h' : (d1 : ℚ) ≤ (d2 : ℚ) := by exact_mod_cast h
  have hq : (d1 : ℚ) / 256 / 16 * 255 ≤ (d2 : ℚ) / 256 / 16 * 255 := by linarith
  exact min_le_min (max_le_max hq le_rfl) le_rfl

/-- C4: for any table built with `gamma > 0`, the lookup is monotonic
non-increasing in the distance input: `d1 ≤ d2` gives
`lookup d2 ≤ lookup d1`. -/
theorem c4_lookup_antitone (g : ℤ) (hg : 0 < g) (d1 d2 : ℤ) (h : d1 ≤ d2) :
    exp_approximation g d2 ≤ exp_approximation g d1 := by
  unfold exp_approximation
  exact build_exp_lut_antitone g (le_of_lt hg) (lutIndex_mono h)

/-- Witness for C4 at `gamma = 1`, distances `0 ≤ 1`. -/
theorem c4_lookup_antitone_witness : exp_approximation 1 1 ≤ exp_approximation 1 0 :=
  c4_lookup_antitone 1 (by norm_num) 0 1 (by norm_num)

/-- Scaling commutes with the clamp: clipping the scaled value into
`[0, 255]` equals clamping the distance into `[0, 16]` first and then
scaling by `255/16`. -/
theorem clipQ_scale (x : ℚ) : clipQ x 0 16 / 16 * 255 = clipQ (x / 16 * 255) 0 255 := by
  unfold clipQ
  rcases le_total x 0 with h | h
  · rw [max_eq_right h, max_eq_right (by linarith : x / 16 * 255 ≤ 0)]
    norm_num
  · rw [max_eq_left h, max_eq_left (by linarith : (0 : ℚ) ≤ x / 16 * 255)]
    rcases le_total x 16 with h2 | h2
    · rw [min_eq_left h2, min_eq_left (by linarith : x / 16 * 255 ≤ 255)]
    · rw [min_eq_right h2, min_eq_right (by linarith : (255 : ℚ) ≤ x / 16 * 255)]
      norm_num

/-- C6: the lookup never faults: the computed index always lies in
`[0, 255]`, it equals `floor((clamped / 16) * 255)` for the distance
clamped into `[0, 16]`, and any distance above the bound (`dist_sq/256 >
16`, i.e. `dist_sq > 4096`) returns the stored entry at the last index
255, never an extrapolated zero. -/
theorem c6_lookup_clamps (g d : ℤ) :
    lutIndex d ≤ 255 ∧
    (lutIndex d : ℤ) = ⌊clipQ ((d : ℚ) / 256) 0 16 / 16 * 255⌋ ∧
    (4096 < d → exp_approximation g d = build_exp_lut g 255) := by
  have hnn : (0 : ℚ) ≤ min (max ((d : ℚ) / 256 / 16 * 255) 0) 255 :=
    le_min (le_max_right _ 0) (by norm_num)
  have hfl : (0 : ℤ) ≤ ⌊min (max ((d : ℚ) / 256 / 16 * 255) 0) 255⌋ :=
    Int.le_floor.mpr (by exact_mod_cast hnn)
  refine ⟨?_, ?_, ?_⟩
  · unfold lutIndex clipQ
    have h255 : ⌊min (max ((d : ℚ) / 256 / 16 * 255) 0) 255⌋ ≤ (255 : ℤ) :=
      le_trans (Int.floor_le_floor (min_le_right _ _)) (by norm_num)
    calc (⌊min (max ((d : ℚ) / 256 / 16 * 255) 0) 255⌋).toNat
        ≤ ((255 : ℤ)).toNat := Int.toNat_le_toNat h255
      _ = 255 := rfl
  · rw [clipQ_scale ((d : ℚ) / 256)]
    unfold lutIndex clipQ
    exact Int.toNat_of_nonneg hfl
  · intro hd
    unfold exp_approximation
    congr 1
    unfold lutIndex clipQ
    have hd' : (4097 : ℚ) ≤ (d : ℚ) := by exact_mod_cast hd
    have hq : (255 : ℚ) ≤ (d : ℚ) / 256 / 16 * 255 := by linarith
    rw [max_eq_left (by linarith), min_eq_right hq]
    norm_num
    rfl

/-- Taylor bounds on `exp (1/8)` from the degree-4 partial sum. -/
theorem exp_eighth_bounds :
    (445563 / 393216 : ℝ) ≤ Real.exp (1 / 8) ∧ Real.exp (1 / 8) ≤ 445573 / 393216 := by
  have h := @Real.exp_bound (1 / 8) (by rw [abs_of_nonneg] <;> norm_num) 4 (by norm_num)
  have hsum : ∑ m ∈ Finset.range 4, (1 / 8 : ℝ) ^ m / m.factorial = 3481 / 3072 := by
    simp [Finset.sum_range_succ, Nat.factorial]
    norm_num
  rw [hsum] at h
  have hbd : |(1 / 8 : ℝ)| ^ 4 * ((4 : ℕ).succ / ((4 : ℕ).factorial * (4 : ℕ))) =
      5 / 393216 := by
    rw [abs_of_nonneg (by norm_num : (0 : ℝ) ≤ 1 / 8)]
    norm_num [Nat.factorial]
  rw [hbd] at h
  rw [abs_le] at h
  constructor <;> [linarith [h.1]; linarith [h.2]]

/-- The scaled exponential at distance `1/8` lies in `[225.5, 226)`: the
floor drops below what rounding to nearest would store. -/
theorem exp_neg_eighth_scaled_bounds :
    (451 / 2 : ℝ) ≤ Real.exp (-(1 / 8)) * 256 ∧ Real.exp (-(1 / 8)) * 256 < 226 := by
  obtain ⟨hl, hu⟩ := exp_eighth_bounds
  have hpos : (0 : ℝ) < Real.exp (1 / 8) := Real.exp_pos _
  have hinv_pos : (0 : ℝ) < (Real.exp (1 / 8))⁻¹ := inv_pos.mpr hpos
  have hinv : Real.exp (1 / 8) * (Real.exp (1 / 8))⁻¹ = 1 := mul_inv_cancel₀ (ne_of_gt hpos)
  rw [Real.exp_neg]
  constructor
  · nlinarith [mul_nonneg (sub_nonneg.mpr hu) hinv_pos.le]
  · nlinarith [mul_nonneg (sub_nonneg.mpr hl) hinv_pos.le]

/-- C3 counterexample: at `gamma = 256` (`gamma/scale = 1.0`) and index
`i = 2` (distance `1/8`), the builder stores `⌊256·exp(-1/8)⌋ = 225`,
while quantizing by rounding to the nearest integer would store 226: the
code truncates, it does not round. -/
theorem c3_lut_entry_truncated :
    build_exp_lut 256 2 = 225 ∧
    round (Real.exp (-(((256 : ℤ) : ℝ) / 256 * (((2 : ℕ) : ℝ) / 256 * 16))) * 256) = 226 ∧
    (225 : ℤ) ≠ 226 := by
  have harg : -(((256 : ℤ) : ℝ) / 256 * (((2 : ℕ) : ℝ) / 256 * 16)) = -(1 / 8) := by
    push_cast
    norm_num
  obtain ⟨hl, hu⟩ := exp_neg_eighth_scaled_bounds
  refine ⟨?_, ?_, by decide⟩
  · rw [build_exp_lut_eq_floor 256 (by norm_num) 2, harg]
    refine Int.floor_eq_iff.mpr ⟨?_, ?_⟩
    · push_cast
      linarith
    · push_cast
      linarith
  · rw [harg, round_eq]
    refine Int.floor_eq_iff.mpr ⟨?_, ?_⟩
    · push_cast
      linarith
    · push_cast
      linarith

/-- C3 (amended): for every index and any non-negative `gamma`, the builder
stores the *truncation toward zero* (equivalently the floor, the value
being positive) of the real reference `exp(-(gamma/scale)·(i/S)·16)`
scaled by `2^frac_bits` — clipped into the 16-bit range, which is inert
here since the entry lies in `[0, 256]` — not the round-to-nearest
quantization. -/
theorem c3_lut_stores_truncation (g : ℤ) (hg : 0 ≤ g) (i : ℕ) :
    build_exp_lut g i = ⌊Real.exp (-((g : ℝ) / 256 * ((i : ℝ) / 256 * 16))) * 256⌋ ∧
    0 ≤ build_exp_lut g i ∧ build_exp_lut g i ≤ 256 := by
  have heq := build_exp_lut_eq_floor g hg i
  have hg' : (0 : ℝ) ≤ (g : ℝ) := by exact_mod_cast hg
  have harg : (0 : ℝ) ≤ (g : ℝ) / 256 * ((i : ℝ) / 256 * 16) := by positivity
  have h1 : 0 < Real.exp (-((g : ℝ) / 256 * ((i : ℝ) / 256 * 16))) := Real.exp_pos _
  have h2 : Real.exp (-((g : ℝ) / 256 * ((i : ℝ) / 256 * 16))) ≤ 1 := by
    rw [Real.exp_le_one_iff]
    linarith
  refine ⟨heq, ?_, ?_⟩
  · rw [heq]
    exact Int.le_floor.mpr (by nlinarith)
  · rw [heq]
    have : Real.exp (-((g : ℝ) / 256 * ((i : ℝ) / 256 * 16))) * 256 ≤ 256 := by nlinarith
    calc ⌊Real.exp (-((g : ℝ) / 256 * ((i : ℝ) / 256 * 16))) * 256⌋
        ≤ ⌊(256 : ℝ)⌋ := Int.floor_le_floor this
      _ = 256 := by norm_num

/-- Witness for C3 (amended) at `gamma = 0`, `i = 0`: `exp 0 · 256`
truncates to 256. -/
theorem c3_lut_stores_truncation_witness :
    build_exp_lut 0 0 = ⌊Real.exp (-(((0 : ℤ) : ℝ) / 256 * (((0 : ℕ) : ℝ) / 256 * 16))) * 256⌋ ∧
    0 ≤ build_exp_lut 0 0 ∧ build_exp_lut 0 0 ≤ 256 :=
  c3_lut_stores_truncation 0 le_rfl 0

end FPGA
